import Mathlib

/-!
# Verification of the assist temporal planner

Shallow embedding of the assist schedule generator (Go sources:
`periods.go`, `settings.go`, `schedule.go`).  Instants and durations are
modelled as `Int` in nanoseconds, the unit of Go's `time.Duration`; the Go
zero instant is modelled as `0`, so `time.Time.IsZero` becomes `= 0` and
`a.After(b)` becomes `b < a`.  Latitude and longitude, used only through
comparisons, are modelled as `ℚ`.  Go functions returning `bool` become
decidable propositions.
-/

/-- One second, in the nanosecond unit of the embedding (Go `time.Second`). -/
def second : Int := 1000000000

/-- `periods.go`: a labelled closed time interval. -/
structure Period where
  Label : String
  Starts : Int
  Ends : Int
deriving DecidableEq, Repr

/-- The Go zero value of `Period`. -/
def zeroPeriod : Period := ⟨"", 0, 0⟩

/-- `periods.go` `Duration`: `ends − starts`. -/
def Period.Duration (p : Period) : Int := p.Ends - p.Starts

/-- `periods.go` `IsZero`: both endpoints are the zero instant. -/
def Period.IsZero (p : Period) : Prop := p.Starts = 0 ∧ p.Ends = 0

instance (p : Period) : Decidable p.IsZero := by unfold Period.IsZero; infer_instance

/-- `periods.go` `Contains`: `o` starts no earlier than `p` and
`o.Starts + o.Duration()` (that is, `o.Ends`) is strictly before `p.Ends`. -/
def Period.Contains (p o : Period) : Prop :=
  ¬ o.Starts < p.Starts ∧ o.Starts + o.Duration < p.Ends

instance (p o : Period) : Decidable (p.Contains o) := by unfold Period.Contains; infer_instance

/-- `periods.go` `Overlaps`. -/
def Period.Overlaps (p o : Period) : Prop :=
  ¬ (p.Ends < o.Starts ∨ o.Ends < p.Starts)

instance (p o : Period) : Decidable (p.Overlaps o) := by unfold Period.Overlaps; infer_instance

/-- `periods.go` `Intersect`. -/
def Period.Intersect (p o : Period) : Int :=
  if ¬ p.Overlaps o then 0
  else if p.Contains o then o.Duration
  else if o.Starts < p.Starts then o.Ends - p.Starts
  else p.Ends - o.Starts

/-- `schedule.go`: a scheduled command event.  The Go struct embeds the
originating `Period` by value. -/
structure Entry where
  Label : String
  When : Int
  Warning : Bool
  period : Period
deriving DecidableEq, Repr

/-- `schedule.go` `Entry.IsZero`. -/
def Entry.IsZero (e : Entry) : Prop := e.When = 0

instance (e : Entry) : Decidable e.IsZero := by unfold Entry.IsZero; infer_instance

/-- `settings.go`: the six command labels. -/
def ROCON : String := "ROCON"

def ROCOFF : String := "ROCOFF"

def CERON : String := "CERON"

def CEROFF : String := "CEROFF"

def ACSON : String := "ACSON"

def ACSOFF : String := "ACSOFF"

/-- `settings.go` `Rect`: a latitude/longitude box. -/
structure Rect where
  North : ℚ
  South : ℚ
  West : ℚ
  East : ℚ
deriving DecidableEq, Repr

/-- `settings.go` `Rect.IsZero`. -/
def Rect.IsZero (r : Rect) : Prop := r.North = r.South ∨ r.West = r.East

instance (r : Rect) : Decidable r.IsZero := by unfold Rect.IsZero; infer_instance

/-- `settings.go` `Rect.isValid`. -/
def Rect.isValid (r : Rect) : Prop := r.South < r.North ∧ r.West < r.East

instance (r : Rect) : Decidable r.isValid := by unfold Rect.isValid; infer_instance

/-- `settings.go` `Rect.Contains`: zero or invalid rects match nothing,
otherwise the bounds are inclusive. -/
def Rect.Contains (r : Rect) (lat lng : ℚ) : Prop :=
  if r.IsZero ∨ ¬ r.isValid then False
  else lat ≤ r.North ∧ r.South ≤ lat ∧ lng ≤ r.East ∧ r.West ≤ lng

instance (r : Rect) (lat lng : ℚ) : Decidable (r.Contains lat lng) := by
  unfold Rect.Contains; infer_instance

/-- `settings.go` `Area`: a union of shapes.  The closed set of shapes the
program builds areas from (`AuroraOption.Area`, the configuration loader)
contains only `Rect` members, so the shape list is modelled as `List Rect`. -/
structure Area where
  shapes : List Rect
deriving DecidableEq, Repr

/-- `settings.go` `Area.Contains`: true iff some member shape contains the
point. -/
def Area.Contains (a : Area) (lat lng : ℚ) : Prop :=
  ∃ r ∈ a.shapes, r.Contains lat lng

instance (a : Area) (lat lng : ℚ) : Decidable (a.Contains lat lng) := by
  unfold Area.Contains; infer_instance

/-- `settings.go` `RocOption` (durations only; the command fileset is not part
of the planner's arithmetic). -/
structure RocOption where
  TimeSAA : Int
  TimeAZM : Int
  TimeOn : Int
  TimeOff : Int
  TimeBetween : Int
  WaitBeforeOn : Int
deriving DecidableEq, Repr

/-- `settings.go` `CerOption` (durations only). -/
structure CerOption where
  TimeOn : Int
  TimeOff : Int
  BeforeSaa : Int
  AfterSaa : Int
  BeforeRoc : Int
  AfterRoc : Int
  SaaCrossingTime : Int
  SwitchTime : Int
deriving DecidableEq, Repr

/-- `settings.go` `AuroraOption` (durations and areas only). -/
structure AuroraOption where
  Night : Int
  Time : Int
  Areas : List Rect
deriving DecidableEq, Repr

/-- `schedule.go` `Schedule`: the three period families plus the permissive
flag. -/
structure Schedule where
  Ignore : Bool
  Eclipses : List Period
  Saas : List Period
  Auroras : List Period
deriving DecidableEq, Repr

/-- `settings.go` `rocDefault`. -/
def rocDefault : RocOption :=
  ⟨10 * second, 40 * second, 50 * second, 80 * second, 120 * second, 100 * second⟩

/-- `settings.go` `cerDefault`. -/
def cerDefault : CerOption :=
  ⟨40 * second, 40 * second, 50 * second, 15 * second, 45 * second, 10 * second,
    120 * second, 0⟩

/-- `schedule.go` `isBetween`: endpoint-inclusive membership of `d` in
`[f, t]`, requiring `f < t`. -/
def isBetween (f t d : Int) : Prop :=
  f < t ∧ (f = d ∨ t = d ∨ (f < d ∧ d < t))

instance (f t d : Int) : Decidable (isBetween f t d) := by unfold isBetween; infer_instance

/-- `schedule.go` `isCrossing`: first period of `as` satisfying the
predicate; the scan stops at the first period starting after `e.Ends`;
the Go zero `Period` signals "not found". -/
def isCrossing (e : Period) (pred : Period → Period → Prop) [DecidableRel pred] :
    List Period → Period
  | [] => zeroPeriod
  | a :: rest =>
      if pred e a then a
      else if e.Ends < a.Starts then zeroPeriod
      else isCrossing e pred rest

/-- `schedule.go` `isCrossingList`: all periods of `as` satisfying the
predicate, scanning until the first period starting after `e.Ends`
(which is still tested before the scan stops). -/
def isCrossingList (e : Period) (pred : Period → Period → Prop) [DecidableRel pred] :
    List Period → List Period
  | [] => []
  | a :: rest =>
      (if pred e a then [a] else []) ++
        (if e.Ends < a.Starts then [] else isCrossingList e pred rest)

/-- `schedule.go` `skipEclipses`: drop the leading eclipses whose
crossing polarity matches `cross`; return the remaining suffix. -/
def skipEclipses (as : List Period) (cross : Bool) (d : Int) :
    List Period → List Period
  | [] => []
  | e :: rest =>
      let a := isCrossing e (fun p o => d = 0 ∨ d < p.Intersect o) as
      if (cross ∧ ¬ a.IsZero) ∨ (¬ cross ∧ a.IsZero) then
        skipEclipses as cross d rest
      else e :: rest

/-- `schedule.go` `scheduleROCON`, short-SAA branch: the SAA plus a
trailing double-AZM footprint `[s.Starts, s.Starts + 2·timeAZM]` is
avoided as a whole. -/
def roconShort (s : Period) (roc : RocOption) (w : Int) : Int :=
  if isBetween s.Starts (s.Starts + 2 * roc.TimeAZM) w ∨
      isBetween s.Starts (s.Starts + 2 * roc.TimeAZM) (w + roc.TimeOn) then
    s.Starts + 2 * roc.TimeAZM
  else w

/-- `scheduleROCON` rewrite 1: the ROCON window strictly contains the
SAA-entry AZM window. -/
def roconStep1 (s : Period) (roc : RocOption) (w : Int) : Int :=
  if w < s.Starts ∧ s.Starts + roc.TimeAZM < w + roc.TimeOn then
    s.Starts + roc.TimeAZM
  else w

/-- `scheduleROCON` rewrite 2: the ROCON window starts or ends inside the
SAA-entry AZM window. -/
def roconStep2 (s : Period) (roc : RocOption) (w : Int) : Int :=
  if isBetween s.Starts (s.Starts + roc.TimeAZM) w ∨
      isBetween s.Starts (s.Starts + roc.TimeAZM) (w + roc.TimeOn) then
    s.Starts + roc.TimeAZM
  else w

/-- `scheduleROCON` rewrite 3: the ROCON window strictly contains the
SAA-exit AZM window. -/
def roconStep3 (s : Period) (roc : RocOption) (w : Int) : Int :=
  if w < s.Ends ∧ s.Ends + roc.TimeAZM < w + roc.TimeOn then
    s.Ends + roc.TimeAZM
  else w

/-- `scheduleROCON` rewrite 4: the ROCON window starts inside the SAA-exit
AZM window, or ends inside it (with the Go source's `timeOn − 1s` quirk). -/
def roconStep4 (s : Period) (roc : RocOption) (w : Int) : Int :=
  if isBetween s.Ends (s.Ends + roc.TimeAZM) w ∨
      isBetween s.Ends (s.Ends + roc.TimeAZM) (w + roc.TimeOn - second) then
    s.Ends + roc.TimeAZM
  else w

/-- `schedule.go` `scheduleROCON`: candidate `e.Starts + waitBeforeOn`;
short SAAs avoid the double-AZM footprint, normal SAAs go through the four
sequential AZM rewrites. -/
def scheduleROCON (e s : Period) (roc : RocOption) : Entry :=
  let w0 := e.Starts + roc.WaitBeforeOn
  if s.IsZero then ⟨ROCON, w0, false, e⟩
  else if roc.TimeSAA ≠ 0 ∧ s.Duration ≤ roc.TimeSAA then
    ⟨ROCON, roconShort s roc w0, false, e⟩
  else
    ⟨ROCON, roconStep4 s roc (roconStep3 s roc (roconStep2 s roc (roconStep1 s roc w0))),
      false, e⟩

/-- `schedule.go` `scheduleROCOFF`, short-SAA branch. -/
def rocoffShort (s : Period) (roc : RocOption) (w : Int) : Int :=
  if isBetween s.Starts (s.Starts + 2 * roc.TimeAZM) w ∨
      isBetween s.Starts (s.Starts + 2 * roc.TimeAZM) (w + roc.TimeOff) then
    s.Starts - roc.TimeOff
  else w

/-- `scheduleROCOFF` rewrite 1: the ROCOFF window strictly contains the
SAA-exit AZM window. -/
def rocoffStep1 (s : Period) (roc : RocOption) (w : Int) : Int :=
  if w < s.Ends ∧ s.Ends + roc.TimeAZM < w + roc.TimeOff then
    s.Ends + roc.TimeAZM
  else w

/-- `scheduleROCOFF` rewrite 2: the ROCOFF window starts or ends inside the
SAA-exit AZM window. -/
def rocoffStep2 (s : Period) (roc : RocOption) (w : Int) : Int :=
  if isBetween s.Ends (s.Ends + roc.TimeAZM) w ∨
      isBetween s.Ends (s.Ends + roc.TimeAZM) (w + roc.TimeOff) then
    s.Ends - roc.TimeOff
  else w

/-- `scheduleROCOFF` rewrite 3: the ROCOFF window strictly contains the
SAA-entry AZM window. -/
def rocoffStep3 (s : Period) (roc : RocOption) (w : Int) : Int :=
  if w < s.Starts ∧ s.Starts + roc.TimeAZM < w + roc.TimeOff then
    s.Starts - roc.TimeOff
  else w

/-- `scheduleROCOFF` rewrite 4: the ROCOFF window starts inside the
SAA-entry AZM window (with the Go source's `timeAZM − 1s` quirk), or ends
inside it. -/
def rocoffStep4 (s : Period) (roc : RocOption) (w : Int) : Int :=
  if isBetween s.Starts (s.Starts + roc.TimeAZM - second) w ∨
      isBetween s.Starts (s.Starts + roc.TimeAZM) (w + roc.TimeOff) then
    s.Starts - roc.TimeOff
  else w

/-- `schedule.go` `scheduleROCOFF`: candidate `e.Ends − timeOff`, then the
short-SAA footprint rule or the four sequential AZM rewrites. -/
def scheduleROCOFF (e s : Period) (roc : RocOption) : Entry :=
  let w0 := e.Ends - roc.TimeOff
  if s.IsZero then ⟨ROCOFF, w0, false, e⟩
  else if 0 < roc.TimeSAA ∧ s.Duration ≤ roc.TimeSAA then
    ⟨ROCOFF, rocoffShort s roc w0, false, e⟩
  else
    ⟨ROCOFF, rocoffStep4 s roc (rocoffStep3 s roc (rocoffStep2 s roc (rocoffStep1 s roc w0))),
      false, e⟩

/-- `schedule.go` `scheduleROC` loop head: gather the SAAs overlapping the
eclipse and compute the ROCON / ROCOFF candidates from the first and last
of them (the Go zero `Period` when there is none). -/
def rocCandidates (saas : List Period) (roc : RocOption) (e : Period) : Entry × Entry :=
  match isCrossingList e (fun p o => p.Overlaps o) saas with
  | [] => (scheduleROCON e zeroPeriod roc, scheduleROCOFF e zeroPeriod roc)
  | a :: rest => (scheduleROCON e a roc, scheduleROCOFF e (rest.getLastD a) roc)

/-- `scheduleROC` pair validation, first check: `timeBetween` is set and the
gap between ROCON end and ROCOFF start is at most `timeBetween`. -/
def rocViolation1 (roc : RocOption) (ron roff : Entry) : Prop :=
  roc.TimeBetween ≠ 0 ∧ roff.When - (ron.When + roc.TimeOn) ≤ roc.TimeBetween

instance (roc : RocOption) (ron roff : Entry) : Decidable (rocViolation1 roc ron roff) := by
  unfold rocViolation1; infer_instance

/-- `scheduleROC` pair validation, second check: ROCOFF does not come more
than `timeOn` after ROCON. -/
def rocViolation2 (roc : RocOption) (ron roff : Entry) : Prop :=
  roff.When < ron.When ∨ roff.When - ron.When ≤ roc.TimeOn

instance (roc : RocOption) (ron roff : Entry) : Decidable (rocViolation2 roc ron roff) := by
  unfold rocViolation2; infer_instance

/-- `schedule.go` `scheduleROC` loop body for one eclipse: a violated pair
is dropped when `ignore` is unset and emitted with both warnings set when
`ignore` is set; `scheduleROC` never fails (its Go error is always `nil`). -/
def rocPair (ign : Bool) (saas : List Period) (roc : RocOption) (e : Period) :
    Option (Entry × Entry) :=
  if rocViolation1 roc (rocCandidates saas roc e).1 (rocCandidates saas roc e).2 ∨
      rocViolation2 roc (rocCandidates saas roc e).1 (rocCandidates saas roc e).2 then
    if ign then
      some ({(rocCandidates saas roc e).1 with Warning := true},
        {(rocCandidates saas roc e).2 with Warning := true})
    else none
  else some ((rocCandidates saas roc e).1, (rocCandidates saas roc e).2)

/-- `schedule.go` `scheduleROC`: the concatenated pairs over all eclipses. -/
def scheduleROC (s : Schedule) (roc : RocOption) : List Entry :=
  s.Eclipses.foldr
    (fun e acc =>
      match rocPair s.Ignore s.Saas roc e with
      | some c => c.1 :: c.2 :: acc
      | none => acc) []

/-- The SAA used for the ROCON candidate: the first SAA overlapping the
eclipse (`as[0]` in `scheduleROC`), or the Go zero `Period` when none. -/
def firstSAA (saas : List Period) (e : Period) : Period :=
  (isCrossingList e (fun p o => p.Overlaps o) saas).headD zeroPeriod

/-- `scheduleOutsideCER` crossing predicate: with a zero threshold every SAA
satisfies it; otherwise the eclipse/SAA intersection must exceed the
threshold. -/
def outsidePred (cer : CerOption) (p o : Period) : Prop :=
  cer.SaaCrossingTime = 0 ∨ cer.SaaCrossingTime < p.Intersect o

instance (cer : CerOption) : DecidableRel (outsidePred cer) := by
  unfold outsidePred DecidableRel; infer_instance

/-- `schedule.go` `scheduleOutsideCER`: walk the eclipses; for the head
eclipse emit CERON at `e.Starts − cer.TimeOn` when a crossing SAA is found
and CEROFF at `e.Starts − cer.TimeOff` otherwise, then skip the contiguous
eclipses of the same polarity. -/
def scheduleOutsideCER (cer : CerOption) (saas : List Period) :
    List Period → List Entry
  | [] => []
  | e :: rest =>
      if ¬ (isCrossing e (outsidePred cer) saas).IsZero then
        ⟨CERON, e.Starts - cer.TimeOn, false, zeroPeriod⟩ ::
          scheduleOutsideCER cer saas (skipEclipses saas true cer.SaaCrossingTime rest)
      else
        ⟨CEROFF, e.Starts - cer.TimeOff, false, e⟩ ::
          scheduleOutsideCER cer saas (skipEclipses saas false cer.SaaCrossingTime rest)
  termination_by es => es.length
  decreasing_by
  · have hle : ∀ l : List Period,
        (skipEclipses saas true cer.SaaCrossingTime l).length ≤ l.length := by
      intro l
      induction l with
      | nil => simp [skipEclipses]
      | cons x xs ih =>
          simp only [skipEclipses]
          split
          · exact Nat.le_succ_of_le ih
          · exact Nat.le_refl _
    simp only [List.length_cons]
    exact Nat.lt_succ_of_le (hle rest)
  · have hle : ∀ l : List Period,
        (skipEclipses saas false cer.SaaCrossingTime l).length ≤ l.length := by
      intro l
      induction l with
      | nil => simp [skipEclipses]
      | cons x xs ih =>
          simp only [skipEclipses]
          split
          · exact Nat.le_succ_of_le ih
          · exact Nat.le_refl _
    simp only [List.length_cons]
    exact Nat.lt_succ_of_le (hle rest)

/-- `scheduleInsideCER`: the execution duration of a ROC entry (`timeOff`
for ROCOFF, `timeOn` for ROCON, zero otherwise — the Go `switch`). -/
def entryDur (roc : RocOption) (r : Entry) : Int :=
  if r.Label = ROCOFF then roc.TimeOff
  else if r.Label = ROCON then roc.TimeOn
  else 0

/-- `scheduleInsideCER` CERON loop: iterate over the ROC list backwards
(the Go `for i := len(rs) − 1; i >= 0; i--`), rewriting the CERON candidate
to `r.When − beforeRoc` whenever the candidate or its end
`candidate + cer.TimeOn` falls in a ROC execution window. -/
def cerBackWalk (cer : CerOption) (roc : RocOption) : List Entry → Int → Int
  | [], w => w
  | r :: rest, w =>
      let w' := cerBackWalk cer roc rest w
      if isBetween r.When (r.When + entryDur roc r) w' ∨
          isBetween r.When (r.When + entryDur roc r) (w' + cer.TimeOn) then
        r.When - cer.BeforeRoc
      else w'

/-- `scheduleInsideCER` CEROFF loop: iterate over the ROC list forwards,
rewriting the CEROFF candidate to `r.When + dr + afterRoc` on conflict. -/
def cerForwardWalk (cer : CerOption) (roc : RocOption) : List Entry → Int → Int
  | [], w => w
  | r :: rest, w =>
      cerForwardWalk cer roc rest
        (if isBetween r.When (r.When + entryDur roc r) w ∨
            isBetween r.When (r.When + entryDur roc r) (w + cer.TimeOff) then
          r.When + entryDur roc r + cer.AfterRoc
        else w)

/-- `scheduleInsideCER` SAA collapsing (the Go `switch len(as)`): none when
no SAA overlaps, the single SAA itself, or the synthesised period from the
first start to the last end. -/
def collapseSAAs : List Period → Option Period
  | [] => none
  | [a] => some a
  | a :: rest => some ⟨"", a.Starts, (rest.getLastD a).Ends⟩

/-- `schedule.go` `scheduleInsideCER` loop body for one eclipse. -/
def cerInsidePair (cer : CerOption) (roc : RocOption) (rs : List Entry)
    (saas : List Period) (e : Period) : Option (Entry × Entry) :=
  match collapseSAAs (isCrossingList e (fun p o => p.Overlaps o) saas) with
  | none => none
  | some p =>
      if p.Duration < cer.SaaCrossingTime ∨ e.Intersect p < cer.SaaCrossingTime then none
      else
        some (⟨CERON, cerBackWalk cer roc rs (p.Starts - cer.BeforeSaa), false, p⟩,
          ⟨CEROFF, cerForwardWalk cer roc rs (p.Ends + cer.AfterSaa), false, p⟩)

/-- `schedule.go` `scheduleInsideCER`: concatenated CERON/CEROFF pairs over
all eclipses. -/
def scheduleInsideCER (cer : CerOption) (roc : RocOption) (rs : List Entry)
    (s : Schedule) : List Entry :=
  s.Eclipses.foldr
    (fun e acc =>
      match cerInsidePair cer roc rs s.Saas e with
      | some c => c.1 :: c.2 :: acc
      | none => acc) []

/-- Go's `sort.Search(n, f)`: binary search for the least index with
`f = true`, assuming `f` is monotone (false then true). -/
def searchAux (f : Nat → Bool) (i j : Nat) : Nat :=
  if h : i < j then
    if f ((i + j) / 2) then searchAux f i ((i + j) / 2)
    else searchAux f ((i + j) / 2 + 1) j
  else i
  termination_by j - i
  decreasing_by
  · omega
  · omega

/-- `sort.Search` as used in `Schedule.Filter`, over `[0, n)`. -/
def goSearch (n : Nat) (f : Nat → Bool) : Nat := searchAux f 0 n

/-- The comparison key of the three `sort.Slice` calls: ordering periods by
their start instant. -/
def startsLE (p q : Period) : Prop := p.Starts ≤ q.Starts

instance : DecidableRel startsLE := by
  unfold startsLE DecidableRel; infer_instance

instance : IsTotal Period startsLE :=
  ⟨fun a b => le_total a.Starts b.Starts⟩

instance : IsTrans Period startsLE :=
  ⟨fun _ _ _ h1 h2 => le_trans h1 h2⟩

/-- `sort.Slice(l, func(i, j) { return l[i].Starts.Before(l[j].Starts) })`,
modelled by a deterministic sort by start instant. -/
def sortPeriods (l : List Period) : List Period := l.insertionSort startsLE

/-- The predicate handed to `sort.Search` in `Schedule.Filter`: the dropped
eclipse at index `i` started strictly before the cutoff and strictly
contains the aurora's start. -/
def auroraSearchPred (t : Int) (skipS : List Period) (a : Period) (i : Nat) : Bool :=
  match skipS.get? i with
  | some e => decide (e.Starts < t ∧ e.Starts < a.Starts ∧ a.Starts < e.Ends)
  | none => false

/-- `Schedule.Filter` aurora retention: not dropped by the binary-search
containment test, and starting strictly after the cutoff. -/
def auroraKept (t : Int) (skipS : List Period) (a : Period) : Prop :=
  ¬ (goSearch skipS.length (auroraSearchPred t skipS a) < skipS.length ∧
      ¬ t < ((skipS.getD (goSearch skipS.length (auroraSearchPred t skipS a))
        zeroPeriod).Starts)) ∧
    t < a.Starts

instance (t : Int) (skipS : List Period) (a : Period) :
    Decidable (auroraKept t skipS a) := by
  unfold auroraKept; infer_instance

/-- `schedule.go` `Schedule.Filter`: the zero cutoff returns the schedule
unchanged; otherwise keep eclipses and SAAs starting strictly after `t` and
keep auroras through the dropped-eclipse binary search. -/
def Schedule.Filter (s : Schedule) (t : Int) : Schedule :=
  if t = 0 then s
  else
    { Ignore := s.Ignore
      Eclipses := s.Eclipses.filter fun e => decide (t < e.Starts)
      Saas := s.Saas.filter fun a => decide (t < a.Starts)
      Auroras := s.Auroras.filter fun a =>
        decide (auroraKept t
          (sortPeriods (s.Eclipses.filter fun e => decide (¬ t < e.Starts))) a) }

/-- One parsed trajectory row (`listPeriods` reads the timestamp, latitude,
longitude, eclipse flag and SAA flag columns). -/
structure Sample where
  time : Int
  lat : ℚ
  lng : ℚ
  eclipse : String
  saa : String
deriving DecidableEq, Repr

/-- `schedule.go` `isEnterPeriod`. -/
def isEnterPeriod (r : String) : Prop := r = "1" ∨ r = "true" ∨ r = "on"

instance (r : String) : Decidable (isEnterPeriod r) := by
  unfold isEnterPeriod; infer_instance

/-- `schedule.go` `isLeavePeriod`. -/
def isLeavePeriod (r : String) : Prop := r = "0" ∨ r = "false" ∨ r = "off"

instance (r : String) : Decidable (isLeavePeriod r) := by
  unfold isLeavePeriod; infer_instance

/-- The loop state of `listPeriods`: the three tentative open periods, the
previous row's timestamp, and the three accumulated lists. -/
structure ExtractState where
  e : Period
  a : Period
  x : Period
  last : Int
  eclipses : List Period
  saas : List Period
  auroras : List Period

/-- The Go zero values `var e, a, x, z Period; var last time.Time`. -/
def initExtractState : ExtractState :=
  ⟨zeroPeriod, zeroPeriod, zeroPeriod, 0, [], [], []⟩

/-- The body of the `listPeriods` row loop: open/close aurora, then eclipse,
then SAA, closing always with the previous row's timestamp `last`, then set
`last` to the current timestamp. -/
def listStep (area : Area) (st : ExtractState) (r : Sample) : ExtractState :=
  let x1 := if area.Contains r.lat r.lng ∧ isEnterPeriod r.eclipse ∧ st.x.IsZero then
      { st.x with Starts := r.time }
    else st.x
  let auroras1 :=
    if (¬ area.Contains r.lat r.lng ∨ isLeavePeriod r.eclipse) ∧ ¬ x1.IsZero then
      st.auroras ++ [⟨"aurora", x1.Starts, st.last⟩]
    else st.auroras
  let x2 :=
    if (¬ area.Contains r.lat r.lng ∨ isLeavePeriod r.eclipse) ∧ ¬ x1.IsZero then
      zeroPeriod
    else x1
  let e1 := if isEnterPeriod r.eclipse ∧ st.e.IsZero then
      { st.e with Starts := r.time }
    else st.e
  let eclipses1 :=
    if isLeavePeriod r.eclipse ∧ ¬ e1.IsZero then
      st.eclipses ++ [⟨"eclipse", e1.Starts, st.last⟩]
    else st.eclipses
  let e2 := if isLeavePeriod r.eclipse ∧ ¬ e1.IsZero then zeroPeriod else e1
  let a1 := if isEnterPeriod r.saa ∧ st.a.IsZero then
      { st.a with Starts := r.time }
    else st.a
  let saas1 :=
    if isLeavePeriod r.saa ∧ ¬ a1.IsZero then
      st.saas ++ [⟨"saa", a1.Starts, st.last⟩]
    else st.saas
  let a2 := if isLeavePeriod r.saa ∧ ¬ a1.IsZero then zeroPeriod else a1
  ⟨e2, a2, x2, r.time, eclipses1, saas1, auroras1⟩

/-- `schedule.go` `listPeriods` over pre-parsed rows: fold the row loop,
fail when no eclipse and no SAA was produced, and sort the three lists by
start instant.  (CSV and timestamp parse failures are outside the model:
the rows arrive already parsed.) -/
def listPeriods (area : Area) (rows : List Sample) : Option Schedule :=
  let st := rows.foldl (listStep area) initExtractState
  if st.eclipses = [] ∧ st.saas = [] then none
  else
    some ⟨false, sortPeriods st.eclipses, sortPeriods st.saas, sortPeriods st.auroras⟩

theorem scheduleROCON_label (e s : Period) (roc : RocOption) :
    (scheduleROCON e s roc).Label = ROCON := by
  unfold scheduleROCON
  split_ifs <;> rfl

theorem scheduleROCOFF_label (e s : Period) (roc : RocOption) :
    (scheduleROCOFF e s roc).Label = ROCOFF := by
  unfold scheduleROCOFF
  split_ifs <;> rfl

theorem scheduleROCON_warning (e s : Period) (roc : RocOption) :
    (scheduleROCON e s roc).Warning = false := by
  unfold scheduleROCON
  split_ifs <;> rfl

theorem scheduleROCOFF_warning (e s : Period) (roc : RocOption) :
    (scheduleROCOFF e s roc).Warning = false := by
  unfold scheduleROCOFF
  split_ifs <;> rfl

/-- C2 — every (ROCON, ROCOFF) pair the ROC planner emits with the warning
flags unset satisfies `rocoff.when − rocon.when > timeOn`, and when
`timeBetween > 0` also `rocoff.when − (rocon.when + timeOn) > timeBetween`. -/
theorem c2_roc_gap (ign : Bool) (saas : List Period) (roc : RocOption) (e : Period)
    (ron roff : Entry) (h : rocPair ign saas roc e = some (ron, roff))
    (hon : ron.Warning = false) (hoff : roff.Warning = false) :
    roc.TimeOn < roff.When - ron.When ∧
      (0 < roc.TimeBetween → roc.TimeBetween < roff.When - (ron.When + roc.TimeOn)) := by
  unfold rocPair at h
  by_cases hv : rocViolation1 roc (rocCandidates saas roc e).1 (rocCandidates saas roc e).2 ∨
      rocViolation2 roc (rocCandidates saas roc e).1 (rocCandidates saas roc e).2
  · rw [if_pos hv] at h
    cases ign with
    | false => simp at h
    | true =>
        rw [if_pos rfl, Option.some_inj, Prod.mk.injEq] at h
        have : ron.Warning = true := by rw [← h.1]
        rw [hon] at this
        exact absurd this (by simp)
  · rw [if_neg hv, Option.some_inj, Prod.mk.injEq] at h
    push_neg at hv
    obtain ⟨hv1, hv2⟩ := hv
    rw [h.1, h.2] at hv1 hv2
    unfold rocViolation1 at hv1
    unfold rocViolation2 at hv2
    push_neg at hv1 hv2
    refine ⟨hv2.2, fun htb => ?_⟩
    exact hv1 (by omega)

/-- Witness for C2: the nominal eclipse `[3600s, 5400s]` with no SAA and the
default ROC options yields the pair `(ROCON @ 3700s, ROCOFF @ 5320s)`. -/
theorem c2_roc_gap_witness :
    rocDefault.TimeOn < 5320 * second - 3700 * second ∧
      (0 < rocDefault.TimeBetween →
        rocDefault.TimeBetween < 5320 * second - (3700 * second + rocDefault.TimeOn)) :=
  c2_roc_gap false [] rocDefault ⟨"eclipse", 3600 * second, 5400 * second⟩
    ⟨ROCON, 3700 * second, false, ⟨"eclipse", 3600 * second, 5400 * second⟩⟩
    ⟨ROCOFF, 5320 * second, false, ⟨"eclipse", 3600 * second, 5400 * second⟩⟩
    (by decide) (by decide) (by decide)

/-- C3 — a ROC pair violating the validation constraints is never an error:
with `ignore = false` it is dropped, with `ignore = true` it is emitted with
both warnings set (and the candidate labels are ROCON and ROCOFF). -/
theorem c3_roc_soft_violation (saas : List Period) (roc : RocOption) (e : Period)
    (h : rocViolation1 roc (rocCandidates saas roc e).1 (rocCandidates saas roc e).2 ∨
      rocViolation2 roc (rocCandidates saas roc e).1 (rocCandidates saas roc e).2) :
    rocPair false saas roc e = none ∧
      rocPair true saas roc e =
        some ({(rocCandidates saas roc e).1 with Warning := true},
          {(rocCandidates saas roc e).2 with Warning := true}) ∧
      (rocCandidates saas roc e).1.Label = ROCON ∧
      (rocCandidates saas roc e).2.Label = ROCOFF := by
  refine ⟨?_, ?_, ?_, ?_⟩
  · unfold rocPair
    rw [if_pos h]
    rfl
  · unfold rocPair
    rw [if_pos h]
    rfl
  · unfold rocCandidates
    cases isCrossingList e (fun p o => p.Overlaps o) saas <;>
      simp [scheduleROCON_label]
  · unfold rocCandidates
    cases isCrossingList e (fun p o => p.Overlaps o) saas <;>
      simp [scheduleROCOFF_label]

/-- Witness for C3: the too-short eclipse `[14400s, 14580s]` (scenario E)
with no SAA and default ROC options; ROCON and ROCOFF candidates collide at
`14500s`. -/
theorem c3_roc_soft_violation_witness :
    rocPair false [] rocDefault ⟨"eclipse", 14400 * second, 14580 * second⟩ = none ∧
      rocPair true [] rocDefault ⟨"eclipse", 14400 * second, 14580 * second⟩ =
        some ({(rocCandidates [] rocDefault ⟨"eclipse", 14400 * second, 14580 * second⟩).1
            with Warning := true},
          {(rocCandidates [] rocDefault ⟨"eclipse", 14400 * second, 14580 * second⟩).2
            with Warning := true}) ∧
      (rocCandidates [] rocDefault ⟨"eclipse", 14400 * second, 14580 * second⟩).1.Label =
        ROCON ∧
      (rocCandidates [] rocDefault ⟨"eclipse", 14400 * second, 14580 * second⟩).2.Label =
        ROCOFF :=
  c3_roc_soft_violation [] rocDefault ⟨"eclipse", 14400 * second, 14580 * second⟩
    (by decide)

/-- After the four sequential AZM rewrites of `scheduleROCON`, the final
time neither starts inside (half-open) nor strictly contains the entry AZM
window `[s.Starts, s.Starts + timeAZM]` or the exit AZM window
`[s.Ends, s.Ends + timeAZM]`, for any well-formed SAA and non-negative AZM
duration. -/
theorem rocon_steps_avoid (s : Period) (roc : RocOption) (w0 t : Int)
    (hwf : s.Starts < s.Ends) (hazm : 0 ≤ roc.TimeAZM)
    (ht : t = roconStep4 s roc (roconStep3 s roc (roconStep2 s roc (roconStep1 s roc w0)))) :
    ¬ (s.Starts ≤ t ∧ t < s.Starts + roc.TimeAZM) ∧
      ¬ (t < s.Starts ∧ s.Starts + roc.TimeAZM < t + roc.TimeOn) ∧
      ¬ (s.Ends ≤ t ∧ t < s.Ends + roc.TimeAZM) ∧
      ¬ (t < s.Ends ∧ s.Ends + roc.TimeAZM < t + roc.TimeOn) := by
  unfold roconStep4 roconStep3 roconStep2 roconStep1 isBetween at ht
  subst ht
  split_ifs <;> omega

/-- The ROCON component of an emitted ROC pair keeps the candidate's time
computed by `scheduleROCON` against the first overlapping SAA (the warning
rewrite never touches `When`). -/
theorem rocPair_when_on (ign : Bool) (saas : List Period) (roc : RocOption) (e : Period)
    (ron roff : Entry) (h : rocPair ign saas roc e = some (ron, roff)) :
    ron.When = (scheduleROCON e (firstSAA saas e) roc).When := by
  have hc : (rocCandidates saas roc e).1 = scheduleROCON e (firstSAA saas e) roc := by
    unfold rocCandidates firstSAA
    cases isCrossingList e (fun p o => p.Overlaps o) saas <;> rfl
  unfold rocPair at h
  by_cases hv : rocViolation1 roc (rocCandidates saas roc e).1 (rocCandidates saas roc e).2 ∨
      rocViolation2 roc (rocCandidates saas roc e).1 (rocCandidates saas roc e).2
  · rw [if_pos hv] at h
    cases ign with
    | false => simp at h
    | true =>
        rw [if_pos rfl, Option.some_inj, Prod.mk.injEq] at h
        rw [← h.1, ← hc]
  · rw [if_neg hv, Option.some_inj, Prod.mk.injEq] at h
    rw [← h.1, hc]

/-- C4 (amended) — for every emitted ROCON whose first overlapping SAA `S`
is well-formed (`S.starts < S.ends`), when `timeAZM ≥ 0` and the short-SAA
mode does not apply (`timeSAA = 0` or `S.duration() > timeSAA`), the window
`[when, when + timeOn]` neither starts inside (half-open) nor strictly
contains the entry AZM window `[S.starts, S.starts + timeAZM]` or the exit
AZM window `[S.ends, S.ends + timeAZM]` — for either value of `ignore`.
(In short-SAA mode the planner avoids the combined footprint
`[S.starts, S.starts + 2·timeAZM]` instead and the property fails, see the
counterexample.) -/
theorem c4_rocon_azm_avoid (ign : Bool) (saas : List Period) (roc : RocOption)
    (e : Period) (ron roff : Entry) (h : rocPair ign saas roc e = some (ron, roff))
    (hwf : (firstSAA saas e).Starts < (firstSAA saas e).Ends)
    (hazm : 0 ≤ roc.TimeAZM)
    (hmode : roc.TimeSAA = 0 ∨ roc.TimeSAA < (firstSAA saas e).Duration) :
    ¬ ((firstSAA saas e).Starts ≤ ron.When ∧
        ron.When < (firstSAA saas e).Starts + roc.TimeAZM) ∧
      ¬ (ron.When < (firstSAA saas e).Starts ∧
        (firstSAA saas e).Starts + roc.TimeAZM < ron.When + roc.TimeOn) ∧
      ¬ ((firstSAA saas e).Ends ≤ ron.When ∧
        ron.When < (firstSAA saas e).Ends + roc.TimeAZM) ∧
      ¬ (ron.When < (firstSAA saas e).Ends ∧
        (firstSAA saas e).Ends + roc.TimeAZM < ron.When + roc.TimeOn) := by
  have hw := rocPair_when_on ign saas roc e ron roff h
  have hnz : ¬ (firstSAA saas e).IsZero := by
    unfold Period.IsZero
    omega
  have hshort : ¬ (roc.TimeSAA ≠ 0 ∧ (firstSAA saas e).Duration ≤ roc.TimeSAA) := by
    unfold Period.Duration at *
    omega
  have hval : (scheduleROCON e (firstSAA saas e) roc).When =
      roconStep4 (firstSAA saas e) roc (roconStep3 (firstSAA saas e) roc
        (roconStep2 (firstSAA saas e) roc (roconStep1 (firstSAA saas e) roc
          (e.Starts + roc.WaitBeforeOn)))) := by
    simp only [scheduleROCON]
    rw [if_neg hnz, if_neg hshort]
  rw [hw, hval]
  exact rocon_steps_avoid (firstSAA saas e) roc (e.Starts + roc.WaitBeforeOn) _ hwf hazm rfl

/-- Witness for C4 (amended): scenario B — eclipse `[7200s, 9300s]`, SAA
`[7230s, 7800s]`, default ROC options; the emitted pair is
`(ROCON @ 7300s, ROCOFF @ 9220s)` and the ROCON window avoids both AZM
windows. -/
theorem c4_rocon_azm_avoid_witness :
    ¬ ((7230 : Int) * second ≤ 7300 * second ∧
        (7300 : Int) * second < 7230 * second + 40 * second) ∧
      ¬ ((7300 : Int) * second < 7230 * second ∧
        (7230 : Int) * second + 40 * second < 7300 * second + 50 * second) ∧
      ¬ ((7800 : Int) * second ≤ 7300 * second ∧
        (7300 : Int) * second < 7800 * second + 40 * second) ∧
      ¬ ((7300 : Int) * second < 7800 * second ∧
        (7800 : Int) * second + 40 * second < 7300 * second + 50 * second) := by
  have h := c4_rocon_azm_avoid false [⟨"saa", 7230 * second, 7800 * second⟩] rocDefault
    ⟨"eclipse", 7200 * second, 9300 * second⟩
    ⟨ROCON, 7300 * second, false, ⟨"eclipse", 7200 * second, 9300 * second⟩⟩
    ⟨ROCOFF, 9220 * second, false, ⟨"eclipse", 7200 * second, 9300 * second⟩⟩
    (by decide) (by decide) (by decide) (by decide)
  have hS : firstSAA [⟨"saa", 7230 * second, 7800 * second⟩]
      ⟨"eclipse", 7200 * second, 9300 * second⟩ = ⟨"saa", 7230 * second, 7800 * second⟩ := by
    decide
  rw [hS] at h
  exact h

/-- C4 — the claim as stated fails in the short-SAA branch: with
`timeSAA = 100s > timeAZM = 40s`, SAA `[1000s, 1060s]` (duration `60s`,
short) overlapping eclipse `[910s, 2000s]`, and `waitBeforeOn = 180s`, the
candidate `1090s` misses the footprint `[1000s, 1080s]`, so the pair is
emitted unchanged with `ignore = false` and no warning — yet `1090s` lies
inside the exit AZM window `[1060s, 1100s)` of the first overlapping SAA. -/
theorem c4_counterexample :
    rocPair false [⟨"saa", 1000 * second, 1060 * second⟩]
        ⟨100 * second, 40 * second, 50 * second, 80 * second, 0, 180 * second⟩
        ⟨"eclipse", 910 * second, 2000 * second⟩ =
      some (⟨ROCON, 1090 * second, false, ⟨"eclipse", 910 * second, 2000 * second⟩⟩,
        ⟨ROCOFF, 1920 * second, false, ⟨"eclipse", 910 * second, 2000 * second⟩⟩) ∧
      firstSAA [⟨"saa", 1000 * second, 1060 * second⟩]
        ⟨"eclipse", 910 * second, 2000 * second⟩ = ⟨"saa", 1000 * second, 1060 * second⟩ ∧
      ((1060 : Int) * second ≤ 1090 * second ∧
        (1090 : Int) * second < 1060 * second + 40 * second) := by
  decide

theorem intersect_eq_zero_of_after (e a : Period) (h : e.Ends < a.Starts) :
    e.Intersect a = 0 := by
  have hov : ¬ e.Overlaps a := not_not.mpr (Or.inl h)
  unfold Period.Intersect
  rw [if_pos hov]

/-- One step of the outside-CER walk: the head eclipse yields exactly one
entry, CERON at `e.Starts − cer.TimeOn` on crossing and CEROFF at
`e.Starts − cer.TimeOff` otherwise. -/
theorem scheduleOutsideCER_cons (cer : CerOption) (saas : List Period) (e : Period)
    (rest : List Period) :
    scheduleOutsideCER cer saas (e :: rest) =
      if ¬ (isCrossing e (outsidePred cer) saas).IsZero then
        ⟨CERON, e.Starts - cer.TimeOn, false, zeroPeriod⟩ ::
          scheduleOutsideCER cer saas (skipEclipses saas true cer.SaaCrossingTime rest)
      else
        ⟨CEROFF, e.Starts - cer.TimeOff, false, e⟩ ::
          scheduleOutsideCER cer saas (skipEclipses saas false cer.SaaCrossingTime rest) := by
  rw [scheduleOutsideCER]

/-- The outside-CER crossing search finds a period iff some SAA satisfies
the predicate, given sorted non-zero SAAs and a non-negative threshold. -/
theorem isCrossing_outside_found (cer : CerOption) (e : Period) (saas : List Period)
    (hsort : saas.Pairwise startsLE) (hnz : ∀ a ∈ saas, ¬ a.IsZero)
    (hth : 0 ≤ cer.SaaCrossingTime) :
    (¬ (isCrossing e (outsidePred cer) saas).IsZero ↔
      ∃ a ∈ saas, cer.SaaCrossingTime = 0 ∨ cer.SaaCrossingTime < e.Intersect a) := by
  induction saas with
  | nil => simp [isCrossing, zeroPeriod, Period.IsZero]
  | cons a rest ih =>
      rw [List.pairwise_cons] at hsort
      obtain ⟨hhead, htail⟩ := hsort
      have hnza : ¬ a.IsZero := hnz a (List.mem_cons_self a rest)
      have hnzr : ∀ x ∈ rest, ¬ x.IsZero := fun x hx => hnz x (List.mem_cons_of_mem a hx)
      simp only [isCrossing]
      by_cases hp : outsidePred cer e a
      · rw [if_pos hp]
        unfold outsidePred at hp
        simp only [List.mem_cons]
        exact ⟨fun _ => ⟨a, Or.inl rfl, hp⟩, fun _ => hnza⟩
      · rw [if_neg hp]
        unfold outsidePred at hp
        push_neg at hp
        by_cases hb : e.Ends < a.Starts
        · rw [if_pos hb]
          constructor
          · intro hz
            exact absurd (by decide : (zeroPeriod).IsZero) hz
          · rintro ⟨x, hx, hpred⟩
            rcases List.mem_cons.mp hx with hh | hh
            · subst hh
              omega
            · have hxa : a.Starts ≤ x.Starts := hhead x hh
              have hzero : e.Intersect x = 0 :=
                intersect_eq_zero_of_after e x (by omega)
              rw [hzero] at hpred
              omega
        · rw [if_neg hb]
          rw [ih htail hnzr]
          simp only [List.mem_cons]
          constructor
          · rintro ⟨x, hx, hpred⟩
            exact ⟨x, Or.inr hx, hpred⟩
          · rintro ⟨x, hx, hpred⟩
            rcases hx with hh | hh
            · subst hh
              omega
            · exact ⟨x, hh, hpred⟩

/-- C1 (amended) — in outside mode, each processed head eclipse yields
exactly one event: a CERON at `e.Starts − cer.TimeOn` when some SAA has
`e.Intersect(a) > saaCrossingTime` (any SAA at all when the threshold is
zero), and a CEROFF at `e.Starts − cer.TimeOff` otherwise; the walk then
continues past the skipped same-polarity eclipses.  The emission times use
`cer.TimeOn` / `cer.TimeOff`, not `cer.SwitchTime`, and the zero-threshold
branch does not require the SAA to overlap the eclipse. -/
theorem c1_outside_cer_head (cer : CerOption) (saas : List Period) (e : Period)
    (rest : List Period) (hsort : saas.Pairwise startsLE)
    (hnz : ∀ a ∈ saas, ¬ a.IsZero) (hth : 0 ≤ cer.SaaCrossingTime) :
    scheduleOutsideCER cer saas (e :: rest) =
      if ∃ a ∈ saas, cer.SaaCrossingTime = 0 ∨ cer.SaaCrossingTime < e.Intersect a then
        ⟨CERON, e.Starts - cer.TimeOn, false, zeroPeriod⟩ ::
          scheduleOutsideCER cer saas (skipEclipses saas true cer.SaaCrossingTime rest)
      else
        ⟨CEROFF, e.Starts - cer.TimeOff, false, e⟩ ::
          scheduleOutsideCER cer saas (skipEclipses saas false cer.SaaCrossingTime rest) := by
  rw [scheduleOutsideCER_cons]
  by_cases hex : ∃ a ∈ saas, cer.SaaCrossingTime = 0 ∨ cer.SaaCrossingTime < e.Intersect a
  · rw [if_pos hex, if_pos ((isCrossing_outside_found cer e saas hsort hnz hth).mpr hex)]
  · rw [if_neg hex, if_neg (fun hc =>
      hex ((isCrossing_outside_found cer e saas hsort hnz hth).mp hc))]

/-- Witness for C1 (amended): one eclipse `[7200s, 9300s]`, one SAA
`[7230s, 7800s]` (intersection `570s` above the `120s` threshold), with
`timeOn = timeOff = 300s`. -/
theorem c1_outside_cer_head_witness :
    scheduleOutsideCER
        ⟨300 * second, 300 * second, 50 * second, 15 * second, 45 * second, 10 * second,
          120 * second, 300 * second⟩
        [⟨"saa", 7230 * second, 7800 * second⟩] [⟨"eclipse", 7200 * second, 9300 * second⟩] =
      if ∃ a ∈ [(⟨"saa", 7230 * second, 7800 * second⟩ : Period)],
          (120 : Int) * second = 0 ∨
            (120 : Int) * second < Period.Intersect ⟨"eclipse", 7200 * second, 9300 * second⟩ a then
        ⟨CERON, Period.Starts ⟨"eclipse", 7200 * second, 9300 * second⟩ - 300 * second, false,
            zeroPeriod⟩ ::
          scheduleOutsideCER
            ⟨300 * second, 300 * second, 50 * second, 15 * second, 45 * second, 10 * second,
              120 * second, 300 * second⟩
            [⟨"saa", 7230 * second, 7800 * second⟩]
            (skipEclipses [⟨"saa", 7230 * second, 7800 * second⟩] true (120 * second) [])
      else
        ⟨CEROFF, Period.Starts ⟨"eclipse", 7200 * second, 9300 * second⟩ - 300 * second, false,
            ⟨"eclipse", 7200 * second, 9300 * second⟩⟩ ::
          scheduleOutsideCER
            ⟨300 * second, 300 * second, 50 * second, 15 * second, 45 * second, 10 * second,
              120 * second, 300 * second⟩
            [⟨"saa", 7230 * second, 7800 * second⟩]
            (skipEclipses [⟨"saa", 7230 * second, 7800 * second⟩] false (120 * second) []) :=
  c1_outside_cer_head
    ⟨300 * second, 300 * second, 50 * second, 15 * second, 45 * second, 10 * second,
      120 * second, 300 * second⟩
    [⟨"saa", 7230 * second, 7800 * second⟩] ⟨"eclipse", 7200 * second, 9300 * second⟩ []
    (by decide) (by decide) (by decide)

/-- C1 — the claim as stated fails: with `switchTime = 300s`, zero crossing
threshold and a single SAA `[5000s, 5100s]` that does not overlap the
eclipse `[1000s, 2000s]`, the code emits a CERON (the zero-threshold
predicate accepts any SAA, overlapping or not) at
`e.Starts − cer.TimeOn = 960s`, whereas the claim requires a CEROFF at
`e.Starts − switchTime = 700s`. -/
theorem c1_counterexample :
    scheduleOutsideCER
        ⟨40 * second, 40 * second, 50 * second, 15 * second, 45 * second, 10 * second, 0,
          300 * second⟩
        [⟨"saa", 5000 * second, 5100 * second⟩] [⟨"eclipse", 1000 * second, 2000 * second⟩] =
      [⟨CERON, 960 * second, false, zeroPeriod⟩] ∧
      ¬ Period.Overlaps ⟨"eclipse", 1000 * second, 2000 * second⟩
        ⟨"saa", 5000 * second, 5100 * second⟩ ∧
      (960 : Int) * second ≠
        Period.Starts ⟨"eclipse", 1000 * second, 2000 * second⟩ - 300 * second := by
  refine ⟨?_, by decide, by decide⟩
  rw [scheduleOutsideCER_cons]
  rw [if_pos (show ¬ (isCrossing ⟨"eclipse", 1000 * second, 2000 * second⟩
    (outsidePred ⟨40 * second, 40 * second, 50 * second, 15 * second, 45 * second,
      10 * second, 0, 300 * second⟩)
    [⟨"saa", 5000 * second, 5100 * second⟩]).IsZero by decide)]
  simp [skipEclipses, scheduleOutsideCER]
  decide

theorem filter_eclipses (s : Schedule) (t : Int) (ht : t ≠ 0) :
    (s.Filter t).Eclipses = s.Eclipses.filter fun e => decide (t < e.Starts) := by
  rw [Schedule.Filter, if_neg ht]

theorem filter_saas (s : Schedule) (t : Int) (ht : t ≠ 0) :
    (s.Filter t).Saas = s.Saas.filter fun a => decide (t < a.Starts) := by
  rw [Schedule.Filter, if_neg ht]

theorem filter_auroras (s : Schedule) (t : Int) (ht : t ≠ 0) :
    (s.Filter t).Auroras = s.Auroras.filter fun a =>
      decide (auroraKept t
        (sortPeriods (s.Eclipses.filter fun e => decide (¬ t < e.Starts))) a) := by
  rw [Schedule.Filter, if_neg ht]

theorem filter_ignore (s : Schedule) (t : Int) (ht : t ≠ 0) :
    (s.Filter t).Ignore = s.Ignore := by
  rw [Schedule.Filter, if_neg ht]

/-- Go's `sort.Search` returns `j` when the predicate is false on the whole
interval. -/
theorem searchAux_all_false (f : Nat → Bool) (i j : Nat) (hij : i ≤ j)
    (hall : ∀ k, i ≤ k → k < j → f k = false) : searchAux f i j = j := by
  by_cases h : i < j
  · rw [searchAux, dif_pos h]
    rw [hall ((i + j) / 2) (by omega) (by omega)]
    rw [if_neg Bool.false_ne_true]
    exact searchAux_all_false f ((i + j) / 2 + 1) j (by omega)
      (fun k h1 h2 => hall k (by omega) h2)
  · rw [searchAux, dif_neg h]
    omega
termination_by j - i
decreasing_by omega

/-- Go's `sort.Search` finds the last index when the predicate is true there
and false everywhere before it. -/
theorem searchAux_last_true (f : Nat → Bool) (i j : Nat) (hij : i < j)
    (hlast : f (j - 1) = true)
    (hall : ∀ k, i ≤ k → k < j - 1 → f k = false) : searchAux f i j = j - 1 := by
  rw [searchAux, dif_pos hij]
  by_cases hm : (i + j) / 2 = j - 1
  · rw [hm, hlast, if_pos rfl]
    exact searchAux_all_false f i (j - 1) (by omega) (fun k h1 h2 => hall k h1 h2)
  · rw [hall ((i + j) / 2) (by omega) (by omega)]
    rw [if_neg Bool.false_ne_true]
    exact searchAux_last_true f ((i + j) / 2 + 1) j (by omega) hlast
      (fun k h1 h2 => hall k (by omega) h2)
termination_by j - i
decreasing_by omega

/-- On the empty dropped-eclipse list, aurora retention reduces to the
strict base-time test. -/
theorem auroraKept_nil (t : Int) (a : Period) :
    auroraKept t [] a ↔ t < a.Starts := by
  unfold auroraKept
  have h0 : goSearch (List.length ([] : List Period)) (auroraSearchPred t [] a) = 0 := by
    unfold goSearch
    exact searchAux_all_false _ 0 0 (le_refl 0) (fun k h1 h2 => by omega)
  rw [h0]
  simp

/-- C8 — filtering is idempotent, and the zero cutoff returns the schedule
unchanged. -/
theorem c8_filter_idempotent (s : Schedule) (t : Int) :
    (s.Filter t).Filter t = s.Filter t ∧ s.Filter 0 = s := by
  have h0 : ∀ u : Schedule, u.Filter 0 = u := by
    intro u
    rw [Schedule.Filter, if_pos rfl]
  refine ⟨?_, h0 s⟩
  by_cases ht : t = 0
  · subst ht
    rw [h0, h0]
  · have hE : ∀ p ∈ (s.Filter t).Eclipses, t < p.Starts := by
      rw [filter_eclipses s t ht]
      intro p hp
      have := List.mem_filter.mp hp
      simpa using this.2
    have hS : ∀ p ∈ (s.Filter t).Saas, t < p.Starts := by
      rw [filter_saas s t ht]
      intro p hp
      have := List.mem_filter.mp hp
      simpa using this.2
    have hX : ∀ p ∈ (s.Filter t).Auroras, t < p.Starts := by
      rw [filter_auroras s t ht]
      intro p hp
      have h2 := (List.mem_filter.mp hp).2
      rw [decide_eq_true_eq] at h2
      exact h2.2
    have hskip : (s.Filter t).Eclipses.filter (fun e => decide (¬ t < e.Starts)) = [] := by
      rw [List.filter_eq_nil_iff]
      intro p hp
      simp [hE p hp]
    conv_lhs => rw [Schedule.Filter]
    rw [if_neg ht]
    rcases hc : s.Filter t with ⟨ig, E, S, X⟩
    rw [hc] at hE hS hX hskip
    simp only [Schedule.mk.injEq]
    refine ⟨trivial, ?_, ?_, ?_⟩
    · rw [List.filter_eq_self]
      intro p hp
      simpa using hE p hp
    · rw [List.filter_eq_self]
      intro p hp
      simpa using hS p hp
    · simp only at hskip
      rw [hskip]
      rw [List.filter_eq_self]
      intro p hp
      rw [decide_eq_true_eq]
      exact (auroraKept_nil t p).mpr (hX p hp)

/-- The binary search of `Schedule.Filter` finds a dropped eclipse iff one
strictly containing the aurora's start (and starting strictly before the
cutoff) exists, provided the dropped-eclipse list is sorted, pairwise
disjoint, well-formed, bounded by the cutoff, and the aurora starts after
the cutoff.  Under these hypotheses the matching eclipse can only sit at
the last index, where Go's `sort.Search` does find it. -/
theorem goSearch_aurora_found (t : Int) (skipS : List Period) (a : Period)
    (hsorted : skipS.Pairwise startsLE)
    (hdisj : skipS.Pairwise fun p q => p.Ends ≤ q.Starts ∨ q.Ends ≤ p.Starts)
    (hwf : ∀ p ∈ skipS, p.Starts < p.Ends)
    (hskip : ∀ p ∈ skipS, p.Starts ≤ t)
    (hat : t < a.Starts) :
    (goSearch skipS.length (auroraSearchPred t skipS a) < skipS.length ↔
      ∃ p ∈ skipS, p.Starts < t ∧ p.Starts < a.Starts ∧ a.Starts < p.Ends) := by
  have hkey : ∀ (k : Nat) (hk : k < skipS.length),
      auroraSearchPred t skipS a k = true → k = skipS.length - 1 := by
    intro k hk hfk
    by_contra hne
    have hk1 : k < skipS.length - 1 := by omega
    have hj : skipS.length - 1 < skipS.length := by omega
    unfold auroraSearchPred at hfk
    rw [List.get?_eq_get hk] at hfk
    rw [decide_eq_true_eq] at hfk
    have hlt : (⟨k, hk⟩ : Fin skipS.length) < ⟨skipS.length - 1, hj⟩ := by
      simp only [Fin.mk_lt_mk]
      omega
    have hso := List.pairwise_iff_get.mp hsorted ⟨k, hk⟩ ⟨skipS.length - 1, hj⟩ hlt
    have hdi := List.pairwise_iff_get.mp hdisj ⟨k, hk⟩ ⟨skipS.length - 1, hj⟩ hlt
    have hq1 := hskip _ (List.get_mem skipS (skipS.length - 1) hj)
    have hq2 := hwf _ (List.get_mem skipS (skipS.length - 1) hj)
    unfold startsLE at hso
    omega
  constructor
  · intro h
    by_contra hno
    have hall : ∀ k, 0 ≤ k → k < skipS.length → auroraSearchPred t skipS a k = false := by
      intro k _ hk
      cases hfk : auroraSearchPred t skipS a k with
      | false => rfl
      | true =>
          exfalso
          apply hno
          unfold auroraSearchPred at hfk
          rw [List.get?_eq_get hk] at hfk
          rw [decide_eq_true_eq] at hfk
          exact ⟨skipS.get ⟨k, hk⟩, List.get_mem skipS k hk, hfk⟩
    rw [goSearch] at h
    rw [searchAux_all_false _ 0 skipS.length (Nat.zero_le _) hall] at h
    omega
  · rintro ⟨p, hp, hprops⟩
    obtain ⟨⟨k, hk⟩, rfl⟩ := List.mem_iff_get.mp hp
    have hfk : auroraSearchPred t skipS a k = true := by
      unfold auroraSearchPred
      rw [List.get?_eq_get hk]
      rw [decide_eq_true_eq]
      exact hprops
    have hkeq := hkey k hk hfk
    have hall : ∀ m, 0 ≤ m → m < skipS.length - 1 →
        auroraSearchPred t skipS a m = false := by
      intro m _ hm
      cases hfm : auroraSearchPred t skipS a m with
      | false => rfl
      | true =>
          have := hkey m (by omega) hfm
          omega
    rw [goSearch]
    rw [searchAux_last_true _ 0 skipS.length (by omega) (hkeq ▸ hfk) hall]
    omega

/-- C7 (amended) — for a non-zero cutoff every retained eclipse, SAA and
aurora starts strictly after `t`; and, provided the schedule's eclipses are
well-formed, sorted by start and pairwise disjoint, an aurora is retained
iff it starts strictly after `t` and no eclipse starting *strictly before*
`t` contains its start.  (An eclipse starting exactly at `t` is dropped but
never detected by the search predicate, hence the strictness amendment.) -/
theorem c7_filter_strict (s : Schedule) (t : Int) (ht : t ≠ 0)
    (hwf : ∀ p ∈ s.Eclipses, p.Starts < p.Ends)
    (hsorted : s.Eclipses.Pairwise startsLE)
    (hdisj : s.Eclipses.Pairwise fun p q => p.Ends ≤ q.Starts) :
    (∀ p ∈ (s.Filter t).Eclipses, t < p.Starts) ∧
      (∀ p ∈ (s.Filter t).Saas, t < p.Starts) ∧
      (∀ p ∈ (s.Filter t).Auroras, t < p.Starts) ∧
      ∀ a ∈ s.Auroras,
        (a ∈ (s.Filter t).Auroras ↔
          t < a.Starts ∧
            ¬ ∃ p ∈ s.Eclipses, p.Starts < t ∧ p.Starts < a.Starts ∧ a.Starts < p.Ends) := by
  refine ⟨?_, ?_, ?_, ?_⟩
  · rw [filter_eclipses s t ht]
    intro p hp
    simpa using (List.mem_filter.mp hp).2
  · rw [filter_saas s t ht]
    intro p hp
    simpa using (List.mem_filter.mp hp).2
  · rw [filter_auroras s t ht]
    intro p hp
    have h2 := (List.mem_filter.mp hp).2
    rw [decide_eq_true_eq] at h2
    exact h2.2
  · intro a ha
    rw [filter_auroras s t ht, List.mem_filter, decide_eq_true_eq]
    have hperm : List.Perm
        (sortPeriods (s.Eclipses.filter fun e => decide (¬ t < e.Starts)))
        (s.Eclipses.filter fun e => decide (¬ t < e.Starts)) :=
      List.perm_insertionSort startsLE _
    have hmem : ∀ p, p ∈ sortPeriods (s.Eclipses.filter fun e => decide (¬ t < e.Starts)) ↔
        p ∈ s.Eclipses ∧ p.Starts ≤ t := by
      intro p
      rw [hperm.mem_iff, List.mem_filter]
      simp [not_lt]
    have hsort2 : (sortPeriods (s.Eclipses.filter fun e => decide (¬ t < e.Starts))).Pairwise
        startsLE := List.sorted_insertionSort startsLE _
    have hdisj2 : (sortPeriods (s.Eclipses.filter fun e => decide (¬ t < e.Starts))).Pairwise
        (fun p q => p.Ends ≤ q.Starts ∨ q.Ends ≤ p.Starts) := by
      have h1 : (s.Eclipses.filter fun e => decide (¬ t < e.Starts)).Pairwise
          (fun p q => p.Ends ≤ q.Starts) := hdisj.sublist (List.filter_sublist _)
      have h2 : (s.Eclipses.filter fun e => decide (¬ t < e.Starts)).Pairwise
          (fun p q => p.Ends ≤ q.Starts ∨ q.Ends ≤ p.Starts) := h1.imp Or.inl
      exact (List.Perm.pairwise_iff (fun h => h.elim Or.inr Or.inl) hperm).mpr h2
    have hwf2 : ∀ p ∈ sortPeriods (s.Eclipses.filter fun e => decide (¬ t < e.Starts)),
        p.Starts < p.Ends := fun p hp => hwf p ((hmem p).mp hp).1
    have hskip2 : ∀ p ∈ sortPeriods (s.Eclipses.filter fun e => decide (¬ t < e.Starts)),
        p.Starts ≤ t := fun p hp => ((hmem p).mp hp).2
    by_cases hat : t < a.Starts
    · have hiff := goSearch_aurora_found t
        (sortPeriods (s.Eclipses.filter fun e => decide (¬ t < e.Starts))) a
        hsort2 hdisj2 hwf2 hskip2 hat
      unfold auroraKept
      constructor
      · rintro ⟨_, hkept, _⟩
        refine ⟨hat, fun hex => hkept ?_⟩
        obtain ⟨p, hp, hprops⟩ := hex
        have hfound : goSearch
            (sortPeriods (s.Eclipses.filter fun e => decide (¬ t < e.Starts))).length
            (auroraSearchPred t
              (sortPeriods (s.Eclipses.filter fun e => decide (¬ t < e.Starts))) a) <
            (sortPeriods (s.Eclipses.filter fun e => decide (¬ t < e.Starts))).length :=
          hiff.mpr ⟨p, (hmem p).mpr ⟨hp, by omega⟩, hprops⟩
        refine ⟨hfound, ?_⟩
        have hmemD : (sortPeriods (s.Eclipses.filter fun e => decide (¬ t < e.Starts))).getD
            (goSearch (sortPeriods (s.Eclipses.filter fun e => decide (¬ t < e.Starts))).length
              (auroraSearchPred t
                (sortPeriods (s.Eclipses.filter fun e => decide (¬ t < e.Starts))) a))
            zeroPeriod ∈
            sortPeriods (s.Eclipses.filter fun e => decide (¬ t < e.Starts)) := by
          rw [List.getD_eq_getElem _ _ hfound]
          exact List.getElem_mem _
        have := hskip2 _ hmemD
        omega
      · rintro ⟨_, hnoex⟩
        refine ⟨ha, ?_, hat⟩
        rintro ⟨hfound, _⟩
        obtain ⟨p, hp, hprops⟩ := hiff.mp hfound
        exact hnoex ⟨p, ((hmem p).mp hp).1, hprops⟩
    · constructor
      · rintro ⟨_, _, hstart⟩
        exact absurd hstart hat
      · rintro ⟨hstart, _⟩
        exact absurd hstart hat

/-- Witness for C7 (amended): cutoff `50s`, one eclipse `[100s, 200s]`, one
SAA `[150s, 180s]`, one aurora `[120s, 130s]` inside the eclipse; everything
is retained and the aurora iff holds. -/
theorem c7_filter_strict_witness :
    (∀ p ∈ ((⟨false, [⟨"eclipse", 100 * second, 200 * second⟩],
        [⟨"saa", 150 * second, 180 * second⟩],
        [⟨"aurora", 120 * second, 130 * second⟩]⟩ : Schedule).Filter (50 * second)).Eclipses,
        50 * second < p.Starts) ∧
      (∀ p ∈ ((⟨false, [⟨"eclipse", 100 * second, 200 * second⟩],
        [⟨"saa", 150 * second, 180 * second⟩],
        [⟨"aurora", 120 * second, 130 * second⟩]⟩ : Schedule).Filter (50 * second)).Saas,
        50 * second < p.Starts) ∧
      (∀ p ∈ ((⟨false, [⟨"eclipse", 100 * second, 200 * second⟩],
        [⟨"saa", 150 * second, 180 * second⟩],
        [⟨"aurora", 120 * second, 130 * second⟩]⟩ : Schedule).Filter (50 * second)).Auroras,
        50 * second < p.Starts) ∧
      ∀ a ∈ (⟨false, [⟨"eclipse", 100 * second, 200 * second⟩],
          [⟨"saa", 150 * second, 180 * second⟩],
          [⟨"aurora", 120 * second, 130 * second⟩]⟩ : Schedule).Auroras,
        (a ∈ ((⟨false, [⟨"eclipse", 100 * second, 200 * second⟩],
            [⟨"saa", 150 * second, 180 * second⟩],
            [⟨"aurora", 120 * second, 130 * second⟩]⟩ : Schedule).Filter
            (50 * second)).Auroras ↔
          50 * second < a.Starts ∧
            ¬ ∃ p ∈ (⟨false, [⟨"eclipse", 100 * second, 200 * second⟩],
                [⟨"saa", 150 * second, 180 * second⟩],
                [⟨"aurora", 120 * second, 130 * second⟩]⟩ : Schedule).Eclipses,
              p.Starts < 50 * second ∧ p.Starts < a.Starts ∧ a.Starts < p.Ends) :=
  c7_filter_strict
    ⟨false, [⟨"eclipse", 100 * second, 200 * second⟩],
      [⟨"saa", 150 * second, 180 * second⟩], [⟨"aurora", 120 * second, 130 * second⟩]⟩
    (50 * second) (by decide) (by decide) (by simp) (by simp)

/-- C7 — the claim as stated fails: with cutoff `10s`, the eclipse
`[10s, 30s]` is dropped (its start is not strictly after the cutoff) and it
contains the aurora start `15s`, yet the aurora is retained: the search
predicate requires `e.Starts < t` *strictly*, so the dropped eclipse
starting exactly at the cutoff is never found. -/
theorem c7_counterexample :
    ((⟨false, [⟨"eclipse", 10 * second, 30 * second⟩], [],
        [⟨"aurora", 15 * second, 20 * second⟩]⟩ : Schedule).Filter (10 * second)).Auroras =
      [⟨"aurora", 15 * second, 20 * second⟩] ∧
      ¬ (10 * second < Period.Starts ⟨"eclipse", 10 * second, 30 * second⟩) ∧
      (Period.Starts ⟨"eclipse", 10 * second, 30 * second⟩ <
          Period.Starts ⟨"aurora", 15 * second, 20 * second⟩ ∧
        Period.Starts ⟨"aurora", 15 * second, 20 * second⟩ <
          Period.Ends ⟨"eclipse", 10 * second, 30 * second⟩) := by
  refine ⟨?_, by decide, by decide⟩
  rw [filter_auroras _ _ (by decide)]
  dsimp only
  have hsk : sortPeriods (List.filter (fun e => decide (¬ (10 * second) < e.Starts))
      [⟨"eclipse", 10 * second, 30 * second⟩]) = [⟨"eclipse", 10 * second, 30 * second⟩] := by
    decide
  rw [hsk]
  have hkept : auroraKept (10 * second) [⟨"eclipse", 10 * second, 30 * second⟩]
      ⟨"aurora", 15 * second, 20 * second⟩ := by
    have hg : goSearch (List.length [(⟨"eclipse", 10 * second, 30 * second⟩ : Period)])
        (auroraSearchPred (10 * second) [⟨"eclipse", 10 * second, 30 * second⟩]
          ⟨"aurora", 15 * second, 20 * second⟩) = 1 := by
      rw [goSearch]
      refine searchAux_all_false _ 0 _ (by simp) ?_
      intro k h1 h2
      have hk0 : k = 0 := by
        simp at h2
        omega
      subst hk0
      decide
    unfold auroraKept
    rw [hg]
    refine ⟨by simp, by decide⟩
  simp [hkept]

theorem enter_leave_disjoint (f : String) : isEnterPeriod f → isLeavePeriod f → False := by
  unfold isEnterPeriod isLeavePeriod
  rintro (rfl | rfl | rfl) (h | h | h) <;> exact absurd h (by decide)

/-- The eclipse family of the row loop preserves the open-period and
accumulated-period invariants. -/
theorem listStep_ecl_inv (area : Area) (st : ExtractState) (r : Sample)
    (hlast : st.last ≤ r.time)
    (he : ¬ st.e.IsZero → st.e.Starts ≤ st.last)
    (hE : ∀ p ∈ st.eclipses, p.Starts ≤ p.Ends) :
    (¬ (listStep area st r).e.IsZero → (listStep area st r).e.Starts ≤ r.time) ∧
      ∀ p ∈ (listStep area st r).eclipses, p.Starts ≤ p.Ends := by
  simp only [listStep]
  split_ifs with h1 h2 h2
  · exact absurd h2.1 (fun hl => enter_leave_disjoint r.eclipse h1.1 hl)
  · exact ⟨fun _ => le_refl _, hE⟩
  · refine ⟨fun hz => absurd (by decide : (zeroPeriod).IsZero) hz, ?_⟩
    intro p hp
    rcases List.mem_append.mp hp with hh | hh
    · exact hE p hh
    · have : p = ⟨"eclipse", st.e.Starts, st.last⟩ := by simpa using hh
      subst this
      have := he h2.2
      simpa using this
  · exact ⟨fun hz => le_trans (he hz) hlast, hE⟩

/-- The SAA family of the row loop preserves the invariants. -/
theorem listStep_saa_inv (area : Area) (st : ExtractState) (r : Sample)
    (hlast : st.last ≤ r.time)
    (ha : ¬ st.a.IsZero → st.a.Starts ≤ st.last)
    (hS : ∀ p ∈ st.saas, p.Starts ≤ p.Ends) :
    (¬ (listStep area st r).a.IsZero → (listStep area st r).a.Starts ≤ r.time) ∧
      ∀ p ∈ (listStep area st r).saas, p.Starts ≤ p.Ends := by
  simp only [listStep]
  split_ifs with h1 h2 h2
  · exact absurd h2.1 (fun hl => enter_leave_disjoint r.saa h1.1 hl)
  · exact ⟨fun _ => le_refl _, hS⟩
  · refine ⟨fun hz => absurd (by decide : (zeroPeriod).IsZero) hz, ?_⟩
    intro p hp
    rcases List.mem_append.mp hp with hh | hh
    · exact hS p hh
    · have : p = ⟨"saa", st.a.Starts, st.last⟩ := by simpa using hh
      subst this
      have := ha h2.2
      simpa using this
  · exact ⟨fun hz => le_trans (ha hz) hlast, hS⟩

/-- The aurora family of the row loop preserves the invariants. -/
theorem listStep_aur_inv (area : Area) (st : ExtractState) (r : Sample)
    (hlast : st.last ≤ r.time)
    (hx : ¬ st.x.IsZero → st.x.Starts ≤ st.last)
    (hX : ∀ p ∈ st.auroras, p.Starts ≤ p.Ends) :
    (¬ (listStep area st r).x.IsZero → (listStep area st r).x.Starts ≤ r.time) ∧
      ∀ p ∈ (listStep area st r).auroras, p.Starts ≤ p.Ends := by
  simp only [listStep]
  split_ifs with h1 h2 h2
  · rcases h2.1 with hnc | hl
    · exact absurd h1.1 hnc
    · exact absurd hl (fun hl2 => enter_leave_disjoint r.eclipse h1.2.1 hl2)
  · exact ⟨fun _ => le_refl _, hX⟩
  · refine ⟨fun hz => absurd (by decide : (zeroPeriod).IsZero) hz, ?_⟩
    intro p hp
    rcases List.mem_append.mp hp with hh | hh
    · exact hX p hh
    · have : p = ⟨"aurora", st.x.Starts, st.last⟩ := by simpa using hh
      subst this
      have := hx h2.2
      simpa using this
  · exact ⟨fun hz => le_trans (hx hz) hlast, hX⟩

/-- Folding the row loop over a time-ordered sample stream keeps every
accumulated period with `starts ≤ ends`. -/
theorem listPeriods_fold_inv (area : Area) :
    ∀ (rows : List Sample) (st : ExtractState),
      List.Chain (· ≤ ·) st.last (rows.map Sample.time) →
      (¬ st.e.IsZero → st.e.Starts ≤ st.last) →
      (¬ st.a.IsZero → st.a.Starts ≤ st.last) →
      (¬ st.x.IsZero → st.x.Starts ≤ st.last) →
      (∀ p ∈ st.eclipses, p.Starts ≤ p.Ends) →
      (∀ p ∈ st.saas, p.Starts ≤ p.Ends) →
      (∀ p ∈ st.auroras, p.Starts ≤ p.Ends) →
      (∀ p ∈ (rows.foldl (listStep area) st).eclipses, p.Starts ≤ p.Ends) ∧
        (∀ p ∈ (rows.foldl (listStep area) st).saas, p.Starts ≤ p.Ends) ∧
        ∀ p ∈ (rows.foldl (listStep area) st).auroras, p.Starts ≤ p.Ends := by
  intro rows
  induction rows with
  | nil =>
      intro st _ _ _ _ hE hS hX
      exact ⟨hE, hS, hX⟩
  | cons r rest ih =>
      intro st hchain he ha hx hE hS hX
      rw [List.map_cons, List.chain_cons] at hchain
      obtain ⟨hle, hchain2⟩ := hchain
      rw [List.foldl_cons]
      have hecl := listStep_ecl_inv area st r hle he hE
      have hsaa := listStep_saa_inv area st r hle ha hS
      have haur := listStep_aur_inv area st r hle hx hX
      exact ih (listStep area st r) hchain2 hecl.1 hsaa.1 haur.1 hecl.2 hsaa.2 haur.2

/-- C9 (amended) — on a sample stream with non-decreasing, non-negative
timestamps, every period produced by the extractor satisfies
`starts ≤ ends` (equality can occur: a LEAVE row immediately after an ENTER
row closes the period with the previous row's timestamp), and each of the
three lists is sorted by non-decreasing starts. -/
theorem c9_extractor_invariants (area : Area) (rows : List Sample) (sched : Schedule)
    (h : listPeriods area rows = some sched)
    (hchain : List.Chain (· ≤ ·) 0 (rows.map Sample.time)) :
    (∀ p ∈ sched.Eclipses, p.Starts ≤ p.Ends) ∧
      (∀ p ∈ sched.Saas, p.Starts ≤ p.Ends) ∧
      (∀ p ∈ sched.Auroras, p.Starts ≤ p.Ends) ∧
      sched.Eclipses.Pairwise startsLE ∧
      sched.Saas.Pairwise startsLE ∧
      sched.Auroras.Pairwise startsLE := by
  simp only [listPeriods] at h
  by_cases hc : (List.foldl (listStep area) initExtractState rows).eclipses = [] ∧
      (List.foldl (listStep area) initExtractState rows).saas = []
  · rw [if_pos hc] at h
    exact absurd h (by simp)
  · rw [if_neg hc, Option.some_inj] at h
    have hinv := listPeriods_fold_inv area rows initExtractState hchain
      (fun hz => absurd (by decide : (zeroPeriod).IsZero) hz)
      (fun hz => absurd (by decide : (zeroPeriod).IsZero) hz)
      (fun hz => absurd (by decide : (zeroPeriod).IsZero) hz)
      (by simp [initExtractState]) (by simp [initExtractState]) (by simp [initExtractState])
    rw [← h]
    refine ⟨?_, ?_, ?_, List.sorted_insertionSort startsLE _,
      List.sorted_insertionSort startsLE _, List.sorted_insertionSort startsLE _⟩
    · intro p hp
      exact hinv.1 p ((List.perm_insertionSort startsLE _).mem_iff.mp hp)
    · intro p hp
      exact hinv.2.1 p ((List.perm_insertionSort startsLE _).mem_iff.mp hp)
    · intro p hp
      exact hinv.2.2 p ((List.perm_insertionSort startsLE _).mem_iff.mp hp)

/-- Witness for C9 (amended): three rows at `1s, 2s, 3s`, night on the
first two, produce the single eclipse `[1s, 2s]`. -/
theorem c9_extractor_invariants_witness :
    (∀ p ∈ (⟨false, [⟨"eclipse", 1 * second, 2 * second⟩], [], []⟩ : Schedule).Eclipses,
        p.Starts ≤ p.Ends) ∧
      (∀ p ∈ (⟨false, [⟨"eclipse", 1 * second, 2 * second⟩], [], []⟩ : Schedule).Saas,
        p.Starts ≤ p.Ends) ∧
      (∀ p ∈ (⟨false, [⟨"eclipse", 1 * second, 2 * second⟩], [], []⟩ : Schedule).Auroras,
        p.Starts ≤ p.Ends) ∧
      (⟨false, [⟨"eclipse", 1 * second, 2 * second⟩], [], []⟩ : Schedule).Eclipses.Pairwise
        startsLE ∧
      (⟨false, [⟨"eclipse", 1 * second, 2 * second⟩], [], []⟩ : Schedule).Saas.Pairwise
        startsLE ∧
      (⟨false, [⟨"eclipse", 1 * second, 2 * second⟩], [], []⟩ : Schedule).Auroras.Pairwise
        startsLE :=
  c9_extractor_invariants ⟨[]⟩
    [⟨1 * second, 0, 0, "1", "0"⟩, ⟨2 * second, 0, 0, "1", "0"⟩,
      ⟨3 * second, 0, 0, "0", "0"⟩]
    ⟨false, [⟨"eclipse", 1 * second, 2 * second⟩], [], []⟩ (by decide)
    (by simp [List.chain_cons]; decide)

/-- C9 — the claim as stated (`starts < ends` strictly) fails: an ENTER row
immediately followed by a LEAVE row closes the eclipse with the previous
row's timestamp, producing the degenerate period `[1s, 1s]`. -/
theorem c9_counterexample :
    listPeriods ⟨[]⟩ [⟨1 * second, 0, 0, "1", "0"⟩, ⟨2 * second, 0, 0, "0", "0"⟩] =
      some ⟨false, [⟨"eclipse", 1 * second, 1 * second⟩], [], []⟩ ∧
      ¬ (Period.Starts ⟨"eclipse", 1 * second, 1 * second⟩ <
        Period.Ends ⟨"eclipse", 1 * second, 1 * second⟩) := by
  decide

theorem not_isBetween_of_lt (f d x : Int) (h : x < f) (hd : 0 ≤ d) :
    ¬ isBetween f (f + d) x := by
  unfold isBetween
  omega

theorem entryDur_nonneg (roc : RocOption) (r : Entry)
    (hon : 0 ≤ roc.TimeOn) (hoff : 0 ≤ roc.TimeOff) : 0 ≤ entryDur roc r := by
  unfold entryDur
  split_ifs <;> omega

/-- The single backward pass of `scheduleInsideCER` leaves a CERON time
conflicting with no ROC event, provided the ROC list is sorted by time and
the CERON execution duration is strictly smaller than `beforeRoc`. -/
theorem cerBackWalk_no_conflict (cer : CerOption) (roc : RocOption) (rs : List Entry)
    (w0 : Int) (hsort : rs.Pairwise (fun r r' => r.When ≤ r'.When))
    (hcd : 0 ≤ cer.TimeOn) (hbr : cer.TimeOn < cer.BeforeRoc)
    (hon : 0 ≤ roc.TimeOn) (hoff : 0 ≤ roc.TimeOff) :
    ∀ r ∈ rs, ¬ isBetween r.When (r.When + entryDur roc r) (cerBackWalk cer roc rs w0) ∧
      ¬ isBetween r.When (r.When + entryDur roc r) (cerBackWalk cer roc rs w0 + cer.TimeOn) := by
  induction rs with
  | nil => simp
  | cons r rest ih =>
      rw [List.pairwise_cons] at hsort
      obtain ⟨hhead, htail⟩ := hsort
      intro r' hr'
      simp only [cerBackWalk]
      by_cases hc : isBetween r.When (r.When + entryDur roc r) (cerBackWalk cer roc rest w0) ∨
          isBetween r.When (r.When + entryDur roc r) (cerBackWalk cer roc rest w0 + cer.TimeOn)
      · rw [if_pos hc]
        have hle : r.When ≤ r'.When := by
          rcases List.mem_cons.mp hr' with hh | hh
          · subst hh
            exact le_refl _
          · exact hhead _ hh
        have hd := entryDur_nonneg roc r' hon hoff
        exact ⟨not_isBetween_of_lt _ _ _ (by omega) hd,
          not_isBetween_of_lt _ _ _ (by omega) hd⟩
      · rw [if_neg hc]
        rcases List.mem_cons.mp hr' with hh | hh
        · subst hh
          push_neg at hc
          exact hc
        · exact ih htail r' hh

/-- C5 (amended) — in CER inside mode, for every eclipse whose collapsed SAA
period passes the crossing-time gate, the emitted CERON starts from the
candidate `P.starts − beforeSaa` rewritten by the single backward walk, and
— provided the ROC list is sorted by time, `0 ≤ ceronDuration < beforeRoc`
and the ROC execution durations are non-negative — the final CERON time
conflicts with no ROC event. -/
theorem c5_ceron_no_conflict (cer : CerOption) (roc : RocOption) (rs : List Entry)
    (saas : List Period) (e : Period) (cn cf : Entry)
    (h : cerInsidePair cer roc rs saas e = some (cn, cf))
    (hsort : rs.Pairwise (fun r r' => r.When ≤ r'.When))
    (hcd : 0 ≤ cer.TimeOn) (hbr : cer.TimeOn < cer.BeforeRoc)
    (hon : 0 ≤ roc.TimeOn) (hoff : 0 ≤ roc.TimeOff) :
    cn.Label = CERON ∧
      ∀ r ∈ rs, ¬ isBetween r.When (r.When + entryDur roc r) cn.When ∧
        ¬ isBetween r.When (r.When + entryDur roc r) (cn.When + cer.TimeOn) := by
  unfold cerInsidePair at h
  split at h
  · exact absurd h (by simp)
  · rename_i p hp
    by_cases hg : p.Duration < cer.SaaCrossingTime ∨ e.Intersect p < cer.SaaCrossingTime
    · rw [if_pos hg] at h
      exact absurd h (by simp)
    · rw [if_neg hg, Option.some_inj, Prod.mk.injEq] at h
      constructor
      · rw [← h.1]
      · intro r hr
        rw [← h.1]
        exact cerBackWalk_no_conflict cer roc rs (p.Starts - cer.BeforeSaa)
          hsort hcd hbr hon hoff r hr

/-- Witness for C5 (amended): scenario C — eclipse `[10800s, 13200s]`, SAA
`[11400s, 12900s]`, default options, ROC events at `10900s` and `13120s`;
the CERON candidate `11350s` survives the backward walk unchanged and
conflicts with neither ROC event. -/
theorem c5_ceron_no_conflict_witness :
    (⟨CERON, 11350 * second, false, ⟨"saa", 11400 * second, 12900 * second⟩⟩ : Entry).Label =
        CERON ∧
      ∀ r ∈ [(⟨ROCON, 10900 * second, false, zeroPeriod⟩ : Entry),
          ⟨ROCOFF, 13120 * second, false, zeroPeriod⟩],
        ¬ isBetween r.When (r.When + entryDur rocDefault r)
            (⟨CERON, 11350 * second, false,
              ⟨"saa", 11400 * second, 12900 * second⟩⟩ : Entry).When ∧
          ¬ isBetween r.When (r.When + entryDur rocDefault r)
            ((⟨CERON, 11350 * second, false,
              ⟨"saa", 11400 * second, 12900 * second⟩⟩ : Entry).When + cerDefault.TimeOn) :=
  c5_ceron_no_conflict cerDefault rocDefault
    [⟨ROCON, 10900 * second, false, zeroPeriod⟩, ⟨ROCOFF, 13120 * second, false, zeroPeriod⟩]
    [⟨"saa", 11400 * second, 12900 * second⟩] ⟨"eclipse", 10800 * second, 13200 * second⟩
    ⟨CERON, 11350 * second, false, ⟨"saa", 11400 * second, 12900 * second⟩⟩
    ⟨CEROFF, 12915 * second, false, ⟨"saa", 11400 * second, 12900 * second⟩⟩
    (by decide) (by decide) (by decide) (by decide) (by decide) (by decide)

/-- C5 — the claim as stated fails: with `beforeRoc = 40s` equal to the
CERON duration `40s`, a ROCON at `240s` (window `[240s, 290s]`) conflicts
with the candidate `250s`, the walk rewrites the CERON to `200s`, and the
rewritten CERON still conflicts with that same ROC event, since
`200s + 40s = 240s` lies (inclusively) in the ROCON execution window. -/
theorem c5_counterexample :
    cerInsidePair ⟨40 * second, 40 * second, 50 * second, 15 * second, 40 * second,
        10 * second, 100 * second, 0⟩ rocDefault
        [⟨ROCON, 240 * second, false, zeroPeriod⟩]
        [⟨"saa", 300 * second, 600 * second⟩] ⟨"eclipse", 100 * second, 1000 * second⟩ =
      some (⟨CERON, 200 * second, false, ⟨"saa", 300 * second, 600 * second⟩⟩,
        ⟨CEROFF, 615 * second, false, ⟨"saa", 300 * second, 600 * second⟩⟩) ∧
      isBetween (240 * second)
        (240 * second + entryDur rocDefault ⟨ROCON, 240 * second, false, zeroPeriod⟩)
        (200 * second + 40 * second) := by
  decide

/-- C6 — the claim as stated fails: `Intersect` can exceed both durations
when `o` properly contains `p`.  With `p = [5s, 10s]` and `o = [0, 20s]`
the code takes the `o.Starts < p.Starts` branch and returns
`o.Ends − p.Starts = 15s`, although `min` of the durations is `5s`. -/
theorem c6_counterexample :
    ¬ Period.Intersect ⟨"eclipse", 5 * second, 10 * second⟩ ⟨"saa", 0, 20 * second⟩ ≤
      min (Period.Duration ⟨"eclipse", 5 * second, 10 * second⟩)
        (Period.Duration ⟨"saa", 0, 20 * second⟩) := by
  decide

/-- C6 (amended) — for periods with `starts ≤ ends`, `p.Intersect o` is
bounded by `min` of the two durations whenever `o` does not properly contain
`p` (`o.starts < p.starts` and `p.ends < o.ends`), and `p.Intersect o = 0`
whenever `p` does not overlap `o`. -/
theorem c6_intersect_bounds (p o : Period)
    (hp : p.Starts ≤ p.Ends) (ho : o.Starts ≤ o.Ends)
    (hnc : ¬ (o.Starts < p.Starts ∧ p.Ends < o.Ends)) :
    p.Intersect o ≤ min p.Duration o.Duration ∧
      (¬ p.Overlaps o → p.Intersect o = 0) := by
  constructor
  · unfold Period.Intersect Period.Contains Period.Overlaps Period.Duration at *
    split_ifs with h1 h2 h3 <;> omega
  · intro h
    unfold Period.Intersect
    rw [if_pos h]

/-- Witness for C6: evaluates the amended bound at `p = [0, 10s]`,
`o = [5s, 8s]` (a contained SAA). -/
theorem c6_intersect_bounds_witness :
    Period.Intersect ⟨"eclipse", 0, 10 * second⟩ ⟨"saa", 5 * second, 8 * second⟩ ≤
      min (Period.Duration ⟨"eclipse", 0, 10 * second⟩)
        (Period.Duration ⟨"saa", 5 * second, 8 * second⟩) ∧
      (¬ Period.Overlaps ⟨"eclipse", 0, 10 * second⟩ ⟨"saa", 5 * second, 8 * second⟩ →
        Period.Intersect ⟨"eclipse", 0, 10 * second⟩ ⟨"saa", 5 * second, 8 * second⟩ = 0) :=
  c6_intersect_bounds _ _ (by decide) (by decide) (by decide)

/-- C10 — area containment is boundary-inclusive: `Area.Contains` holds iff
some member rect with `south < north` and `west < east` satisfies
`south ≤ lat ≤ north` and `west ≤ lng ≤ east`; zero-extent or inverted rects
never match. -/
theorem c10_area_contains_iff (a : Area) (lat lng : ℚ) :
    a.Contains lat lng ↔
      ∃ r ∈ a.shapes, (r.South < r.North ∧ r.West < r.East) ∧
        (r.South ≤ lat ∧ lat ≤ r.North ∧ r.West ≤ lng ∧ lng ≤ r.East) := by
  unfold Area.Contains
  constructor
  · rintro ⟨r, hr, hc⟩
    refine ⟨r, hr, ?_⟩
    unfold Rect.Contains at hc
    split_ifs at hc with h
    push_neg at h
    exact ⟨h.2, hc.2.1, hc.1, hc.2.2.2, hc.2.2.1⟩
  · rintro ⟨r, hr, ⟨hv, hb⟩⟩
    refine ⟨r, hr, ?_⟩
    unfold Rect.Contains
    have hz : ¬ r.IsZero := by
      unfold Rect.IsZero
      push_neg
      exact ⟨hv.1.ne', hv.2.ne⟩
    rw [if_neg (by simp [hz, Rect.isValid, hv.1, hv.2])]
    exact ⟨hb.2.1, hb.1, hb.2.2.2, hb.2.2.1⟩
